import Mathlib

/-
Verification of a coffee-shop CRUD service (src/main.py).

The service is a FastAPI application over one SQLAlchemy table `coffees`
with columns id (integer primary key, sequence-assigned), name (text, not
null), description (text, nullable) and price (float, not null), and five
handlers: list, get-by-id, create, update, delete.

Embedding notes:
- The database is modelled as a list of rows together with the sequence
  counter that assigns primary keys (`Store`).  The primary-key lookup
  `db.get(Coffee, id)` becomes `List.find?` on the id.
- Request bodies are modelled as JSON-like literals (`JVal`); pydantic v1
  validation of the `CoffeeCreate` schema (lenient coercion of fields to
  `str` / `float`, `Optional[str] = None` default) is `CoffeeCreate.validate`.
- Python floats carry no arithmetic in this program (they are parsed,
  stored and echoed back), so `price` is modelled as `Rat`.
- A handler outcome is `Out`: a view, a list of views, no content, an
  `HTTPException` (status, detail), or a framework 422 validation failure.
-/

namespace CoffeeApi

/-- JSON-like literal values appearing in request payload fields. -/
inductive JVal where
  | js (s : String)
  | jn (q : Rat)
  | jnull
deriving DecidableEq

/-- A raw request body for POST/PUT: each of the three fields of the
`CoffeeCreate` schema may be absent (`none`) or hold any JSON literal. -/
structure RawPayload where
  name : Option JVal
  description : Option JVal
  price : Option JVal
deriving DecidableEq

/-- Numeric value of a list of decimal digit characters. -/
def digitsVal (l : List Char) : Nat :=
  l.foldl (fun a c => a * 10 + (c.toNat - 48)) 0

/-- Parse the exponent part of a float literal: optional sign followed by a
nonempty run of digits, consuming the whole input. -/
def parseExp (l : List Char) : Option Int :=
  let se : Bool × List Char :=
    match l with
    | '-' :: r => (true, r)
    | '+' :: r => (false, r)
    | _ => (false, l)
  if se.2.isEmpty then none
  else if se.2.all Char.isDigit then
    some (if se.1 then -(digitsVal se.2 : Int) else (digitsVal se.2 : Int))
  else none

/-- Parse a decimal string as a number, following Python `float(str)` on
plain decimal literals: optional sign, integer digits, optional fractional
part, optional exponent; at least one digit must be present.  (Surrounding
whitespace, `inf`/`nan` spellings and digit underscores are not modelled.) -/
def strToRat? (s : String) : Option Rat :=
  let cs := s.toList
  let sr : Bool × List Char :=
    match cs with
    | '-' :: r => (true, r)
    | '+' :: r => (false, r)
    | _ => (false, cs)
  let neg := sr.1
  let body := sr.2
  let ip := body.takeWhile Char.isDigit
  let rest1 := body.dropWhile Char.isDigit
  let fr : List Char × List Char :=
    match rest1 with
    | '.' :: r => (r.takeWhile Char.isDigit, r.dropWhile Char.isDigit)
    | _ => ([], rest1)
  let fp := fr.1
  let rest2 := fr.2
  let expVal : Option Int :=
    match rest2 with
    | [] => some 0
    | 'e' :: r => parseExp r
    | 'E' :: r => parseExp r
    | _ => none
  if ip.isEmpty && fp.isEmpty then none
  else
    match expVal with
    | none => none
    | some e =>
      let mag : Rat := ((digitsVal ip * 10 ^ fp.length + digitsVal fp : Nat) : Rat)
      let v : Rat := mag / (10 : Rat) ^ fp.length * (10 : Rat) ^ e
      some (if neg then -v else v)

/-- Lenient coercion of a request field to text, as pydantic v1 does for a
required `str` field: strings pass through (empty included), numbers are
stringified, null or missing fields fail. -/
def coerceStr : Option JVal → Option String
  | some (.js s) => some s
  | some (.jn q) => some (toString q)
  | some .jnull => none
  | none => none

/-- Coercion of a request field for `description : Optional[str] = None`:
null or missing yields the default `None`; it never fails on a literal. -/
def coerceOptStr : Option JVal → Option (Option String)
  | some (.js s) => some (some s)
  | some (.jn q) => some (some (toString q))
  | some .jnull => some none
  | none => some none

/-- Lenient coercion of a request field to a number, as pydantic v1 does
for a required `float` field: numbers pass through, numeric strings are
parsed, null or missing or non-numeric fields fail. -/
def coerceFloat : Option JVal → Option Rat
  | some (.jn q) => some q
  | some (.js s) => strToRat? s
  | some .jnull => none
  | none => none

/-- Pydantic request schema `CoffeeCreate` (src/main.py:23-26):
`name : str`, `description : Optional[str] = None`, `price : float`. -/
structure CoffeeCreate where
  name : String
  description : Option String
  price : Rat
deriving DecidableEq

/-- FastAPI body validation of a raw POST/PUT payload against the
`CoffeeCreate` schema; `none` is surfaced to the caller as a 422. -/
def CoffeeCreate.validate (r : RawPayload) : Option CoffeeCreate :=
  match coerceStr r.name, coerceOptStr r.description, coerceFloat r.price with
  | some n, some d, some p => some ⟨n, d, p⟩
  | _, _, _ => none

/-- A persisted row of the `coffees` table (src/main.py:15-20). -/
structure Coffee where
  id : Nat
  name : String
  description : Option String
  price : Rat
deriving DecidableEq

/-- Response schema `CoffeeRead` (src/main.py:28-35): a direct projection
of a row. -/
structure CoffeeRead where
  id : Nat
  name : String
  description : Option String
  price : Rat
deriving DecidableEq

/-- Serialization of a row through the `CoffeeRead` response model. -/
def Coffee.toRead (c : Coffee) : CoffeeRead :=
  ⟨c.id, c.name, c.description, c.price⟩

/-- The database state: the rows of the `coffees` table plus the value the
id sequence `coffee_id_seq` will assign next. -/
structure Store where
  rows : List Coffee
  nextId : Nat
deriving DecidableEq

/-- The freshly created schema: no rows, sequence at 1. -/
def initStore : Store :=
  ⟨[], 1⟩

/-- Primary-key lookup, `db.get(Coffee, coffee_id)`. -/
def Store.get? (s : Store) (id : Nat) : Option Coffee :=
  s.rows.find? (fun r => r.id == id)

/-- Overwrite the row whose primary key is `id` with `c` (the in-place
mutation of the object returned by `db.get` followed by commit). -/
def setRow (id : Nat) (c : Coffee) : List Coffee → List Coffee
  | [] => []
  | r :: rs => if r.id == id then c :: rs else r :: setRow id c rs

/-- Remove the row whose primary key is `id` (`db.delete` of the object
returned by `db.get`, followed by commit). -/
def delRow (id : Nat) : List Coffee → List Coffee
  | [] => []
  | r :: rs => if r.id == id then rs else r :: delRow id rs

/-- Outcome of one handler call. -/
inductive Out where
  | views (l : List CoffeeRead)
  | view (v : CoffeeRead)
  | noContent
  | httpError (status : Nat) (detail : String)
  | invalid
deriving DecidableEq

/-- GET /coffees/ (src/main.py:58-62): select all rows. -/
def get_coffees (db : Store) : Out × Store :=
  (.views (db.rows.map Coffee.toRead), db)

/-- POST /coffees/ handler body (src/main.py:65-71): insert a new row, the
sequence assigning its id, and echo it back. -/
def add_coffee (c : CoffeeCreate) (db : Store) : Out × Store :=
  let new_coffee : Coffee := ⟨db.nextId, c.name, c.description, c.price⟩
  (.view new_coffee.toRead, ⟨db.rows ++ [new_coffee], db.nextId + 1⟩)

/-- GET /coffees/{coffee_id} (src/main.py:74-79). -/
def get_coffee_by_id (coffee_id : Nat) (db : Store) : Out × Store :=
  match db.get? coffee_id with
  | none => (.httpError 404 "Coffee not found", db)
  | some c => (.view c.toRead, db)

/-- PUT /coffees/{coffee_id} handler body (src/main.py:82-94): look up the
row, overwrite name/description/price, commit, echo the row back. -/
def update_coffee (coffee_id : Nat) (u : CoffeeCreate) (db : Store) : Out × Store :=
  match db.get? coffee_id with
  | none => (.httpError 404 "Coffee not found", db)
  | some c =>
    let c2 : Coffee := ⟨c.id, u.name, u.description, u.price⟩
    (.view c2.toRead, ⟨setRow coffee_id c2 db.rows, db.nextId⟩)

/-- DELETE /coffees/{coffee_id} (src/main.py:97-105). -/
def delete_coffee (coffee_id : Nat) (db : Store) : Out × Store :=
  match db.get? coffee_id with
  | none => (.httpError 404 "Coffee not found", db)
  | some _ => (.noContent, ⟨delRow coffee_id db.rows, db.nextId⟩)

/-- One inbound request. -/
inductive Op where
  | list
  | getById (id : Nat)
  | create (raw : RawPayload)
  | update (id : Nat) (raw : RawPayload)
  | delete (id : Nat)

/-- Dispatch one request: FastAPI validates the body against
`CoffeeCreate` before the handler runs (422 on failure), then the handler
executes against the store. -/
def run : Op → Store → Out × Store
  | .list, s => get_coffees s
  | .getById i, s => get_coffee_by_id i s
  | .create raw, s =>
    match CoffeeCreate.validate raw with
    | none => (.invalid, s)
    | some c => add_coffee c s
  | .update i raw, s =>
    match CoffeeCreate.validate raw with
    | none => (.invalid, s)
    | some c => update_coffee i c s
  | .delete i, s => delete_coffee i s

/-- Store states reachable from the freshly created schema by any sequence
of requests. -/
inductive Reachable : Store → Prop where
  | init : Reachable initStore
  | step (op : Op) {s : Store} : Reachable s → Reachable (run op s).2

/-- A handler outcome that is surfaced to the caller as a failure. -/
def Out.isFailure : Out → Prop
  | .httpError _ _ => True
  | .invalid => True
  | _ => False

/-- The store invariant: every row id is below the sequence counter and the
row ids (the primary keys) are pairwise distinct. -/
def Inv (s : Store) : Prop :=
  (∀ r ∈ s.rows, r.id < s.nextId) ∧ (s.rows.map Coffee.id).Nodup

/-- A raw create/update payload the `CoffeeCreate` schema rejects:
`name` missing or null, or `price` missing, null, or a string that does not
parse as a number.  (An empty string for `name` is not rejected.) -/
def malformedPayload (r : RawPayload) : Prop :=
  (r.name = none ∨ r.name = some .jnull) ∨
    (r.price = none ∨ r.price = some .jnull ∨
      ∃ s, r.price = some (.js s) ∧ strToRat? s = none)

/-- Concrete valid payload used to instantiate theorems with hypotheses. -/
def rawLatte : RawPayload :=
  ⟨some (.js "Latte"), none, some (.jn (9 / 2))⟩

/-- Concrete valid payload with a description field. -/
def rawMocha : RawPayload :=
  ⟨some (.js "Mocha"), some (.js "oat milk"), some (.jn 5)⟩

/-- The store after creating `rawLatte` in the fresh schema. -/
def storeOne : Store :=
  (run (.create rawLatte) initStore).2

/-! Auxiliary lemmas. -/

theorem get_coffee_by_id_snd (i : Nat) (db : Store) : (get_coffee_by_id i db).2 = db := by
  unfold get_coffee_by_id
  cases db.get? i <;> rfl

theorem find?_id_some {l : List Coffee} {i : Nat} {r : Coffee}
    (h : l.find? (fun x => x.id == i) = some r) : r.id = i := by
  simpa using List.find?_some h

theorem find?_id_cons (i : Nat) (r : Coffee) (rs : List Coffee) :
    (r :: rs).find? (fun x => x.id == i) =
      if r.id = i then some r else rs.find? (fun x => x.id == i) := by
  by_cases h : r.id = i <;> simp [List.find?_cons, h]

theorem find?_append_fresh {i : Nat} {c : Coffee} (hc : c.id = i) :
    ∀ l : List Coffee, (∀ r ∈ l, r.id ≠ i) →
      (l ++ [c]).find? (fun x => x.id == i) = some c := by
  intro l
  induction l with
  | nil =>
    intro _
    simp [find?_id_cons, hc]
  | cons r rs ih =>
    intro h
    have hr : ¬ r.id = i := h r (List.mem_cons_self r rs)
    rw [List.cons_append, find?_id_cons, if_neg hr]
    exact ih fun x hx => h x (List.mem_cons_of_mem _ hx)

theorem setRow_id_map {i : Nat} {c : Coffee} (hc : c.id = i) :
    ∀ l : List Coffee, (setRow i c l).map Coffee.id = l.map Coffee.id := by
  intro l
  induction l with
  | nil => rfl
  | cons r rs ih =>
    by_cases h : r.id = i
    · simp [setRow, h, hc]
    · simp [setRow, h, ih]

theorem setRow_find_eq {i : Nat} {c : Coffee} (hc : c.id = i) :
    ∀ l : List Coffee, (l.find? (fun x => x.id == i)).isSome →
      (setRow i c l).find? (fun x => x.id == i) = some c := by
  intro l
  induction l with
  | nil => intro h; simp [List.find?] at h
  | cons r rs ih =>
    intro h
    by_cases hr : r.id = i
    · have hrw : setRow i c (r :: rs) = c :: rs := by simp [setRow, hr]
      rw [hrw, find?_id_cons, if_pos hc]
    · have hrw : setRow i c (r :: rs) = r :: setRow i c rs := by simp [setRow, hr]
      rw [find?_id_cons, if_neg hr] at h
      rw [hrw, find?_id_cons, if_neg hr]
      exact ih h

theorem setRow_spec (i : Nat) (c : Coffee) :
    ∀ l : List Coffee, (l.find? (fun x => x.id == i)).isSome →
      ∃ j, ∃ hj : j < l.length, (l.get ⟨j, hj⟩).id = i ∧ setRow i c l = l.set j c := by
  intro l
  induction l with
  | nil => intro h; simp [List.find?] at h
  | cons r rs ih =>
    intro h
    by_cases hr : r.id = i
    · exact ⟨0, by simp, by simpa using hr, by simp [setRow, hr]⟩
    · rw [find?_id_cons, if_neg hr] at h
      obtain ⟨j, hj, hid, hset⟩ := ih h
      refine ⟨j + 1, by simpa using Nat.succ_lt_succ hj, by simpa using hid, ?_⟩
      simp [setRow, hr, hset]

theorem delRow_sublist (i : Nat) : ∀ l : List Coffee, (delRow i l).Sublist l := by
  intro l
  induction l with
  | nil => simp [delRow]
  | cons r rs ih =>
    by_cases h : r.id = i
    · have : delRow i (r :: rs) = rs := by simp [delRow, h]
      rw [this]
      exact List.sublist_cons_self r rs
    · have : delRow i (r :: rs) = r :: delRow i rs := by simp [delRow, h]
      rw [this]
      exact ih.cons₂ r

theorem delRow_find_none (i : Nat) :
    ∀ l : List Coffee, (l.map Coffee.id).Nodup →
      (delRow i l).find? (fun x => x.id == i) = none := by
  intro l
  induction l with
  | nil => intro _; rfl
  | cons r rs ih =>
    intro hnd
    rw [List.map_cons, List.nodup_cons] at hnd
    by_cases h : r.id = i
    · have hd : delRow i (r :: rs) = rs := by simp [delRow, h]
      rw [hd]
      apply List.find?_eq_none.2
      intro x hx
      simp only [beq_iff_eq]
      intro hxi
      exact hnd.1 (by rw [← h, ← hxi] at *; exact List.mem_map_of_mem Coffee.id hx)
    · have hd : delRow i (r :: rs) = r :: delRow i rs := by simp [delRow, h]
      rw [hd, find?_id_cons, if_neg h]
      exact ih hnd.2

theorem inv_init : Inv initStore := by
  simp [Inv, initStore]

theorem inv_step (op : Op) (s : Store) (h : Inv s) : Inv (run op s).2 := by
  obtain ⟨hb, hn⟩ := h
  cases op with
  | list => exact ⟨hb, hn⟩
  | getById i =>
    show Inv (get_coffee_by_id i s).2
    rw [get_coffee_by_id_snd]
    exact ⟨hb, hn⟩
  | create raw =>
    cases hv : CoffeeCreate.validate raw with
    | none => simp only [run, hv]; exact ⟨hb, hn⟩
    | some c =>
      simp only [run, hv, add_coffee]
      constructor
      · intro r hr
        rcases List.mem_append.1 hr with h1 | h1
        · exact Nat.lt_succ_of_lt (hb r h1)
        · rw [List.mem_singleton.1 h1]
          exact Nat.lt_succ_self _
      · rw [List.map_append, List.nodup_append]
        refine ⟨hn, List.nodup_singleton _, ?_⟩
        intro a ha hmem
        rw [List.map_singleton, List.mem_singleton] at hmem
        obtain ⟨r, hr, hrid⟩ := List.mem_map.1 ha
        have hlt : r.id < s.nextId := hb r hr
        rw [hrid, hmem] at hlt
        exact Nat.lt_irrefl _ hlt
  | update i raw =>
    cases hv : CoffeeCreate.validate raw with
    | none => simp only [run, hv]; exact ⟨hb, hn⟩
    | some c =>
      simp only [run, hv]
      cases hg : s.get? i with
      | none => simp only [update_coffee, Store.get?] at hg ⊢; rw [hg]; exact ⟨hb, hn⟩
      | some r0 =>
        have hid : r0.id = i := find?_id_some hg
        simp only [update_coffee, Store.get?] at hg ⊢
        rw [hg]
        have hmap := setRow_id_map (c := ⟨r0.id, c.name, c.description, c.price⟩) hid s.rows
        constructor
        · intro r hr
          have hmem : r.id ∈ s.rows.map Coffee.id := by
            rw [← hmap]
            exact List.mem_map_of_mem Coffee.id hr
          obtain ⟨r2, hr2, hr2id⟩ := List.mem_map.1 hmem
          rw [← hr2id]
          exact hb r2 hr2
        · show ((setRow i _ s.rows).map Coffee.id).Nodup
          rw [hmap]
          exact hn
  | delete i =>
    cases hg : s.get? i with
    | none => simp only [run, delete_coffee, Store.get?] at hg ⊢; rw [hg]; exact ⟨hb, hn⟩
    | some c =>
      simp only [run, delete_coffee, Store.get?] at hg ⊢
      rw [hg]
      constructor
      · intro r hr
        exact hb r ((delRow_sublist i s.rows).subset hr)
      · exact (((delRow_sublist i s.rows).map Coffee.id).nodup hn)

theorem reachable_inv : ∀ {s : Store}, Reachable s → Inv s := by
  intro s h
  induction h with
  | init => exact inv_init
  | step op _ ih => exact inv_step op _ ih

theorem run_nextId_le (op : Op) (s : Store) : s.nextId ≤ (run op s).2.nextId := by
  cases op with
  | list => exact Nat.le_refl _
  | getById i =>
    show s.nextId ≤ (get_coffee_by_id i s).2.nextId
    rw [get_coffee_by_id_snd]
  | create raw =>
    cases hv : CoffeeCreate.validate raw with
    | none => simp [run, hv]
    | some c => simp only [run, hv, add_coffee]; exact Nat.le_succ _
  | update i raw =>
    cases hv : CoffeeCreate.validate raw with
    | none => simp [run, hv]
    | some c =>
      simp only [run, hv, update_coffee]
      cases s.get? i <;> simp
  | delete i =>
    simp only [run, delete_coffee]
    cases s.get? i <;> simp

theorem coerceOptStr_ne_none (d : Option JVal) : coerceOptStr d ≠ none := by
  rcases d with _ | (s | q | _) <;> simp [coerceOptStr]

theorem coerceStr_eq_none_iff (n : Option JVal) :
    coerceStr n = none ↔ n = none ∨ n = some .jnull := by
  rcases n with _ | (s | q | _) <;> simp [coerceStr]

theorem coerceFloat_eq_none_iff (p : Option JVal) :
    coerceFloat p = none ↔
      p = none ∨ p = some .jnull ∨ ∃ s, p = some (.js s) ∧ strToRat? s = none := by
  rcases p with _ | (s | q | _) <;> simp [coerceFloat]

theorem validate_eq_none_aux (r : RawPayload) :
    CoffeeCreate.validate r = none ↔
      coerceStr r.name = none ∨ coerceFloat r.price = none := by
  cases hn : coerceStr r.name with
  | none =>
    simp only [hn]
    cases hd : coerceOptStr r.description with
    | none => exact absurd hd (coerceOptStr_ne_none _)
    | some d => cases hp : coerceFloat r.price <;>
        simp [CoffeeCreate.validate, hn, hd, hp]
  | some n =>
    cases hd : coerceOptStr r.description with
    | none => exact absurd hd (coerceOptStr_ne_none _)
    | some d => cases hp : coerceFloat r.price <;>
        simp [CoffeeCreate.validate, hn, hd, hp]

theorem validate_eq_none_iff (r : RawPayload) :
    CoffeeCreate.validate r = none ↔ malformedPayload r := by
  rw [validate_eq_none_aux, coerceStr_eq_none_iff, coerceFloat_eq_none_iff]
  exact Iff.rfl

theorem validate_some_elim {r : RawPayload} {c : CoffeeCreate}
    (hv : CoffeeCreate.validate r = some c) :
    coerceStr r.name = some c.name ∧ coerceOptStr r.description = some c.description ∧
      coerceFloat r.price = some c.price := by
  cases hn : coerceStr r.name with
  | none =>
    rw [(validate_eq_none_aux r).2 (Or.inl hn)] at hv
    exact absurd hv (by simp)
  | some n =>
    cases hd : coerceOptStr r.description with
    | none => exact absurd hd (coerceOptStr_ne_none _)
    | some d =>
      cases hp : coerceFloat r.price with
      | none =>
        rw [(validate_eq_none_aux r).2 (Or.inr hp)] at hv
        exact absurd hv (by simp)
      | some p =>
        have hval : CoffeeCreate.validate r = some ⟨n, d, p⟩ := by
          simp [CoffeeCreate.validate, hn, hd, hp]
        rw [hval] at hv
        obtain hc := Option.some.inj hv
        rw [← hc]
        exact ⟨rfl, rfl, rfl⟩

theorem validate_description_none {r : RawPayload} {c : CoffeeCreate}
    (hv : CoffeeCreate.validate r = some c) (hr : r.description = none) :
    c.description = none := by
  have hd := (validate_some_elim hv).2.1
  rw [hr] at hd
  exact (Option.some.inj hd).symm

theorem update_then_get (i : Nat) (c : CoffeeCreate) (s : Store)
    (hex : (s.get? i).isSome) :
    ∃ s2, update_coffee i c s = (.view ⟨i, c.name, c.description, c.price⟩, s2) ∧
      get_coffee_by_id i s2 = (.view ⟨i, c.name, c.description, c.price⟩, s2) := by
  obtain ⟨r0, hg⟩ := Option.isSome_iff_exists.1 hex
  have hid : r0.id = i := find?_id_some hg
  refine ⟨⟨setRow i ⟨r0.id, c.name, c.description, c.price⟩ s.rows, s.nextId⟩, ?_, ?_⟩
  · simp [update_coffee, hg, Coffee.toRead, hid]
  · have hfind := setRow_find_eq (c := ⟨r0.id, c.name, c.description, c.price⟩) hid s.rows
      (by rw [Store.get?] at hg; rw [hg]; rfl)
    rw [hid] at hfind
    rw [hid]
    simp [get_coffee_by_id, Store.get?, hfind, Coffee.toRead]

/-! Claims. -/

/-- C1 fails as stated: the create payload with an empty-string `name`
and a valid `price` passes validation and creates a record, because the
`CoffeeCreate` schema declares `name : str` with no minimum length. -/
theorem validation_accepts_empty_name :
    CoffeeCreate.validate ⟨some (.js ""), none, some (.jn (9 / 2))⟩ =
      some ⟨"", none, 9 / 2⟩ ∧
    run (.create ⟨some (.js ""), none, some (.jn (9 / 2))⟩) initStore =
      (.view ⟨1, "", none, 9 / 2⟩, ⟨[⟨1, "", none, 9 / 2⟩], 2⟩) :=
  ⟨rfl, rfl⟩

/-- C1 (amended): for every create or update request, validation fails
(surfaced as a 422) if and only if the input is malformed in the sense of
`malformedPayload`: `name` missing or null, or `price` missing, null, or
not a valid number; an empty-string `name` is accepted. -/
theorem validation_fails_iff_malformed (raw : RawPayload) (i : Nat) (s : Store) :
    ((run (.create raw) s).1 = .invalid ↔ malformedPayload raw) ∧
    ((run (.update i raw) s).1 = .invalid ↔ malformedPayload raw) := by
  rw [← validate_eq_none_iff]
  cases hv : CoffeeCreate.validate raw with
  | none => simp [run, hv]
  | some c =>
    constructor
    · simp [run, hv, add_coffee]
    · simp only [run, hv, update_coffee]
      cases hg : s.get? i with
      | none => simp
      | some r0 => simp

/-- C2: creating from a valid payload and then reading back the returned
id yields a view whose name, description and price are the input's, the
description being null when the payload omitted it. -/
theorem create_get_roundtrip (raw : RawPayload) (c : CoffeeCreate) (s : Store)
    (hv : CoffeeCreate.validate raw = some c) (hs : Reachable s) :
    ∃ v s2, run (.create raw) s = (.view v, s2) ∧
      run (.getById v.id) s2 = (.view v, s2) ∧
      v.name = c.name ∧ v.description = c.description ∧ v.price = c.price ∧
      (raw.description = none → v.description = none) := by
  have hb := (reachable_inv hs).1
  refine ⟨⟨s.nextId, c.name, c.description, c.price⟩,
    ⟨s.rows ++ [⟨s.nextId, c.name, c.description, c.price⟩], s.nextId + 1⟩,
    ?_, ?_, rfl, rfl, rfl, ?_⟩
  · simp [run, hv, add_coffee, Coffee.toRead]
  · have hfind := find?_append_fresh
      (c := (⟨s.nextId, c.name, c.description, c.price⟩ : Coffee)) rfl s.rows
      (fun r hr => Nat.ne_of_lt (hb r hr))
    show get_coffee_by_id s.nextId _ = _
    simp [get_coffee_by_id, Store.get?, hfind, Coffee.toRead]
  · intro hd
    exact validate_description_none hv hd

/-- C2 witness: the round trip at a concrete payload and the fresh store. -/
theorem create_get_roundtrip_witness :
    CoffeeCreate.validate rawLatte = some ⟨"Latte", none, 9 / 2⟩ ∧
    Reachable initStore ∧
    (∃ v s2, run (.create rawLatte) initStore = (.view v, s2) ∧
      run (.getById v.id) s2 = (.view v, s2) ∧
      v.name = "Latte" ∧ v.description = none ∧ v.price = 9 / 2 ∧
      (rawLatte.description = none → v.description = none)) :=
  ⟨rfl, .init,
    create_get_roundtrip rawLatte ⟨"Latte", none, 9 / 2⟩ initStore rfl .init⟩

/-- C3: a successful update from a valid payload followed by a get on the
same id returns exactly the new payload's name, description and price —
the three mutable fields are overwritten wholesale, never merged. -/
theorem update_wholesale (i : Nat) (raw : RawPayload) (c : CoffeeCreate) (s : Store)
    (hv : CoffeeCreate.validate raw = some c) (hex : (s.get? i).isSome) :
    ∃ s2, run (.update i raw) s = (.view ⟨i, c.name, c.description, c.price⟩, s2) ∧
      run (.getById i) s2 = (.view ⟨i, c.name, c.description, c.price⟩, s2) := by
  obtain ⟨s2, h1, h2⟩ := update_then_get i c s hex
  exact ⟨s2, by simp [run, hv, h1], h2⟩

/-- C3 witness: updating the single record of a concrete store. -/
theorem update_wholesale_witness :
    CoffeeCreate.validate rawMocha = some ⟨"Mocha", some "oat milk", 5⟩ ∧
    (storeOne.get? 1).isSome ∧
    (∃ s2, run (.update 1 rawMocha) storeOne =
        (.view ⟨1, "Mocha", some "oat milk", 5⟩, s2) ∧
      run (.getById 1) s2 = (.view ⟨1, "Mocha", some "oat milk", 5⟩, s2)) :=
  ⟨rfl, rfl, update_wholesale 1 rawMocha ⟨"Mocha", some "oat milk", 5⟩ storeOne rfl rfl⟩

/-- C4: after a successful delete of an id (in a reachable store, so ids
are unique) and with no intervening create, a get, an update with any
well-formed input, and a further delete on that id all answer NotFound. -/
theorem delete_terminal (i : Nat) (s s2 : Store)
    (hs : Reachable s) (hdel : run (.delete i) s = (.noContent, s2)) :
    (run (.getById i) s2).1 = .httpError 404 "Coffee not found" ∧
    (∀ c : CoffeeCreate, (update_coffee i c s2).1 = .httpError 404 "Coffee not found") ∧
    (run (.delete i) s2).1 = .httpError 404 "Coffee not found" := by
  have hn := (reachable_inv hs).2
  cases hg : s.get? i with
  | none =>
    simp [run, delete_coffee, hg] at hdel
  | some r0 =>
    simp only [run, delete_coffee, hg, Prod.mk.injEq] at hdel
    have hrows : s2.rows = delRow i s.rows := by rw [← hdel.2]
    have hget : s2.get? i = none := by
      rw [Store.get?, hrows]
      exact delRow_find_none i s.rows hn
    refine ⟨?_, fun c => ?_, ?_⟩ <;>
      simp [run, get_coffee_by_id, update_coffee, delete_coffee, hget]

/-- C4 witness: delete the single record of a concrete store, then hit
all three operations on its id. -/
theorem delete_terminal_witness :
    Reachable storeOne ∧
    run (.delete 1) storeOne = (.noContent, ⟨[], 2⟩) ∧
    ((run (.getById 1) (⟨[], 2⟩ : Store)).1 = .httpError 404 "Coffee not found" ∧
      (∀ c : CoffeeCreate,
        (update_coffee 1 c (⟨[], 2⟩ : Store)).1 = .httpError 404 "Coffee not found") ∧
      (run (.delete 1) (⟨[], 2⟩ : Store)).1 = .httpError 404 "Coffee not found") :=
  ⟨.step _ .init, rfl, delete_terminal 1 storeOne ⟨[], 2⟩ (.step _ .init) rfl⟩

/-- C5: on an id with no row, get, update with well-formed input, and
delete each answer 404 with detail string "Coffee not found" and leave the
store as it was; on an id with a row, none of them answers NotFound (get
and update return views, delete returns no content). -/
theorem nonexistent_id_notfound (i : Nat) (s : Store) :
    ((∀ r ∈ s.rows, r.id ≠ i) →
      run (.getById i) s = (.httpError 404 "Coffee not found", s) ∧
      (∀ c : CoffeeCreate, update_coffee i c s = (.httpError 404 "Coffee not found", s)) ∧
      run (.delete i) s = (.httpError 404 "Coffee not found", s)) ∧
    ((∃ r ∈ s.rows, r.id = i) →
      (∃ v, (run (.getById i) s).1 = .view v) ∧
      (∀ c : CoffeeCreate, ∃ v, (update_coffee i c s).1 = .view v) ∧
      (run (.delete i) s).1 = .noContent) := by
  constructor
  · intro h
    have hg : s.get? i = none := by
      rw [Store.get?]
      exact List.find?_eq_none.2 fun x hx => by simpa using h x hx
    refine ⟨?_, fun c => ?_, ?_⟩ <;>
      simp [run, get_coffee_by_id, update_coffee, delete_coffee, hg]
  · intro h
    have hg : (s.get? i).isSome := by
      rw [Store.get?, List.find?_isSome]
      obtain ⟨r, hr, hri⟩ := h
      exact ⟨r, hr, by simpa using hri⟩
    obtain ⟨r0, hg0⟩ := Option.isSome_iff_exists.1 hg
    refine ⟨⟨r0.toRead, ?_⟩,
        fun c => ⟨⟨r0.id, c.name, c.description, c.price⟩, ?_⟩, ?_⟩ <;>
      simp [run, get_coffee_by_id, update_coffee, delete_coffee, hg0, Coffee.toRead]

/-- C5 witness: both halves at a concrete store — id 2 is absent, id 1 is
present. -/
theorem nonexistent_id_notfound_witness :
    ((∀ r ∈ storeOne.rows, r.id ≠ 2) →
      run (.getById 2) storeOne = (.httpError 404 "Coffee not found", storeOne) ∧
      (∀ c : CoffeeCreate,
        update_coffee 2 c storeOne = (.httpError 404 "Coffee not found", storeOne)) ∧
      run (.delete 2) storeOne = (.httpError 404 "Coffee not found", storeOne)) ∧
    ((∃ r ∈ storeOne.rows, r.id = 2) →
      (∃ v, (run (.getById 2) storeOne).1 = .view v) ∧
      (∀ c : CoffeeCreate, ∃ v, (update_coffee 2 c storeOne).1 = .view v) ∧
      (run (.delete 2) storeOne).1 = .noContent) :=
  nonexistent_id_notfound 2 storeOne

/-- C6: in every reachable store the persisted ids are pairwise distinct
and lie strictly below the sequence counter, the counter never decreases
under any request (so an id carried by any past record stays below every
later counter value), and a create assigns the current counter value as a
fresh id carried by no live row, a second sequential create returning a
different id. -/
theorem create_fresh_ids (s : Store) (hs : Reachable s) :
    (s.rows.map Coffee.id).Nodup ∧
    (∀ r ∈ s.rows, r.id < s.nextId) ∧
    (∀ op : Op, s.nextId ≤ (run op s).2.nextId) ∧
    (∀ raw c, CoffeeCreate.validate raw = some c →
      ∃ v s2, run (.create raw) s = (.view v, s2) ∧
        v.id = s.nextId ∧
        (∀ r ∈ s.rows, r.id ≠ v.id) ∧
        (∀ raw2 c2, CoffeeCreate.validate raw2 = some c2 →
          ∃ v2 s3, run (.create raw2) s2 = (.view v2, s3) ∧ v2.id ≠ v.id)) := by
  obtain ⟨hb, hn⟩ := reachable_inv hs
  refine ⟨hn, hb, fun op => run_nextId_le op s, fun raw c hv => ?_⟩
  refine ⟨⟨s.nextId, c.name, c.description, c.price⟩,
    ⟨s.rows ++ [⟨s.nextId, c.name, c.description, c.price⟩], s.nextId + 1⟩,
    by simp [run, hv, add_coffee, Coffee.toRead], rfl, ?_, ?_⟩
  · intro r hr
    exact Nat.ne_of_lt (hb r hr)
  · intro raw2 c2 hv2
    refine ⟨⟨s.nextId + 1, c2.name, c2.description, c2.price⟩,
      ⟨(s.rows ++ [⟨s.nextId, c.name, c.description, c.price⟩]) ++
        [⟨s.nextId + 1, c2.name, c2.description, c2.price⟩], s.nextId + 1 + 1⟩,
      by simp [run, hv2, add_coffee, Coffee.toRead], by simp⟩

/-- C6 witness: the guarantees instantiated at the concrete one-record
store and two concrete creates. -/
theorem create_fresh_ids_witness :
    Reachable storeOne ∧
    ((storeOne.rows.map Coffee.id).Nodup ∧
      (∀ r ∈ storeOne.rows, r.id < storeOne.nextId) ∧
      (∀ op : Op, storeOne.nextId ≤ (run op storeOne).2.nextId) ∧
      (∀ raw c, CoffeeCreate.validate raw = some c →
        ∃ v s2, run (.create raw) storeOne = (.view v, s2) ∧
          v.id = storeOne.nextId ∧
          (∀ r ∈ storeOne.rows, r.id ≠ v.id) ∧
          (∀ raw2 c2, CoffeeCreate.validate raw2 = some c2 →
            ∃ v2 s3, run (.create raw2) s2 = (.view v2, s3) ∧ v2.id ≠ v.id))) :=
  ⟨.step _ .init, create_fresh_ids storeOne (.step _ .init)⟩

/-- C7: get-by-id and list leave the store unchanged, and repeating either
with no intervening write returns the identical result. -/
theorem reads_idempotent (i : Nat) (s : Store) :
    (run (.getById i) s).2 = s ∧
    run (.getById i) ((run (.getById i) s).2) = run (.getById i) s ∧
    (run .list s).2 = s ∧
    run .list ((run .list s).2) = run .list s := by
  have h1 : (run (.getById i) s).2 = s := get_coffee_by_id_snd i s
  exact ⟨h1, by rw [h1], rfl, rfl⟩

/-- C8: any request whose outcome is a failure (a 404 or a 422) leaves the
store exactly as it was, so a subsequent list is unaffected. -/
theorem failed_op_no_effect (op : Op) (s : Store)
    (h : (run op s).1.isFailure) :
    (run op s).2 = s ∧ run .list ((run op s).2) = run .list s := by
  have h2 : (run op s).2 = s := by
    cases op with
    | list => exact absurd h (by simp [run, get_coffees, Out.isFailure])
    | getById i => exact get_coffee_by_id_snd i s
    | create raw =>
      cases hv : CoffeeCreate.validate raw with
      | none => simp [run, hv]
      | some c => exact absurd h (by simp [run, hv, add_coffee, Out.isFailure])
    | update i raw =>
      cases hv : CoffeeCreate.validate raw with
      | none => simp [run, hv]
      | some c =>
        cases hg : s.get? i with
        | none => simp [run, hv, update_coffee, hg]
        | some r0 => exact absurd h (by simp [run, hv, update_coffee, hg, Out.isFailure])
    | delete i =>
      cases hg : s.get? i with
      | none => simp [run, delete_coffee, hg]
      | some r0 => exact absurd h (by simp [run, delete_coffee, hg, Out.isFailure])
  exact ⟨h2, by rw [h2]⟩

/-- C8 witness: a create with a missing price fails and the store and a
subsequent list are unaffected. -/
theorem failed_op_no_effect_witness :
    (run (.create ⟨some (.js "Latte"), none, none⟩) storeOne).1.isFailure ∧
    ((run (.create ⟨some (.js "Latte"), none, none⟩) storeOne).2 = storeOne ∧
      run .list ((run (.create ⟨some (.js "Latte"), none, none⟩) storeOne).2) =
        run .list storeOne) :=
  ⟨trivial, failed_op_no_effect (.create ⟨some (.js "Latte"), none, none⟩) storeOne trivial⟩

/-- C9: a successful update only replaces the three mutable fields of the
one row whose primary key was addressed: the sequence counter and the whole
id column are unchanged, the addressed row keeps its id, and every other
row is untouched. -/
theorem update_frame (i : Nat) (c : CoffeeCreate) (s : Store) (v : CoffeeRead)
    (s2 : Store) (h : update_coffee i c s = (.view v, s2)) :
    s2.nextId = s.nextId ∧
    s2.rows.map Coffee.id = s.rows.map Coffee.id ∧
    ∃ j, ∃ hj : j < s.rows.length,
      (s.rows.get ⟨j, hj⟩).id = i ∧
      s2.rows = s.rows.set j ⟨i, c.name, c.description, c.price⟩ ∧
      ∀ k, ∀ hk : k < s.rows.length, ∀ hk2 : k < s2.rows.length,
        k ≠ j → s2.rows.get ⟨k, hk2⟩ = s.rows.get ⟨k, hk⟩ := by
  cases hg : s.get? i with
  | none => simp [update_coffee, hg] at h
  | some r0 =>
    have hid : r0.id = i := find?_id_some hg
    have hex : (s.rows.find? (fun x => x.id == i)).isSome := by
      rw [Store.get?] at hg
      rw [hg]
      rfl
    subst hid
    simp only [update_coffee, hg, Prod.mk.injEq] at h
    obtain ⟨hv2, hs2⟩ := h
    obtain ⟨j, hj, hjid, hset⟩ :=
      setRow_spec r0.id ⟨r0.id, c.name, c.description, c.price⟩ s.rows hex
    rw [← hs2]
    refine ⟨rfl,
      setRow_id_map (c := ⟨r0.id, c.name, c.description, c.price⟩) rfl s.rows,
      j, hj, hjid, hset, ?_⟩
    intro k hk hk2 hkj
    simp only [hset, List.get_eq_getElem]
    exact List.getElem_set_ne (Ne.symm hkj) _

/-- C9 witness: updating one of two records of a concrete store leaves the
other record untouched. -/
theorem update_frame_witness :
    update_coffee 1 ⟨"Flat White", none, 4⟩
        (⟨[⟨1, "Latte", none, 9 / 2⟩, ⟨2, "Mocha", some "oat milk", 5⟩], 3⟩ : Store) =
      (.view ⟨1, "Flat White", none, 4⟩,
        ⟨[⟨1, "Flat White", none, 4⟩, ⟨2, "Mocha", some "oat milk", 5⟩], 3⟩) ∧
    ((⟨[⟨1, "Flat White", none, 4⟩, ⟨2, "Mocha", some "oat milk", 5⟩], 3⟩ : Store).nextId =
        (⟨[⟨1, "Latte", none, 9 / 2⟩, ⟨2, "Mocha", some "oat milk", 5⟩], 3⟩ : Store).nextId ∧
      (⟨[⟨1, "Flat White", none, 4⟩, ⟨2, "Mocha", some "oat milk", 5⟩], 3⟩ : Store).rows.map
          Coffee.id =
        (⟨[⟨1, "Latte", none, 9 / 2⟩, ⟨2, "Mocha", some "oat milk", 5⟩], 3⟩ : Store).rows.map
          Coffee.id ∧
      ∃ j, ∃ hj : j <
          (⟨[⟨1, "Latte", none, 9 / 2⟩, ⟨2, "Mocha", some "oat milk", 5⟩], 3⟩ : Store).rows.length,
        ((⟨[⟨1, "Latte", none, 9 / 2⟩, ⟨2, "Mocha", some "oat milk", 5⟩], 3⟩ : Store).rows.get
            ⟨j, hj⟩).id = 1 ∧
        (⟨[⟨1, "Flat White", none, 4⟩, ⟨2, "Mocha", some "oat milk", 5⟩], 3⟩ : Store).rows =
          (⟨[⟨1, "Latte", none, 9 / 2⟩, ⟨2, "Mocha", some "oat milk", 5⟩], 3⟩ : Store).rows.set j
            ⟨1, "Flat White", none, 4⟩ ∧
        ∀ k, ∀ hk : k <
            (⟨[⟨1, "Latte", none, 9 / 2⟩, ⟨2, "Mocha", some "oat milk", 5⟩], 3⟩ : Store).rows.length,
          ∀ hk2 : k <
            (⟨[⟨1, "Flat White", none, 4⟩, ⟨2, "Mocha", some "oat milk", 5⟩], 3⟩ : Store).rows.length,
          k ≠ j →
            (⟨[⟨1, "Flat White", none, 4⟩, ⟨2, "Mocha", some "oat milk", 5⟩], 3⟩ : Store).rows.get
                ⟨k, hk2⟩ =
              (⟨[⟨1, "Latte", none, 9 / 2⟩, ⟨2, "Mocha", some "oat milk", 5⟩], 3⟩ : Store).rows.get
                ⟨k, hk⟩) :=
  ⟨rfl, update_frame 1 ⟨"Flat White", none, 4⟩
    ⟨[⟨1, "Latte", none, 9 / 2⟩, ⟨2, "Mocha", some "oat milk", 5⟩], 3⟩
    ⟨1, "Flat White", none, 4⟩
    ⟨[⟨1, "Flat White", none, 4⟩, ⟨2, "Mocha", some "oat milk", 5⟩], 3⟩ rfl⟩

/-- C10: when an update's payload omits the description field, validation
fills in the default null, and a successful update stores that null,
erasing the record's previous non-null description. -/
theorem update_erases_description (i : Nat) (raw : RawPayload) (c : CoffeeCreate)
    (s : Store) (r0 : Coffee) (d0 : String)
    (hv : CoffeeCreate.validate raw = some c) (hdesc : raw.description = none)
    (hg : s.get? i = some r0) (_hd0 : r0.description = some d0) :
    c.description = none ∧
    ∃ s2, run (.update i raw) s = (.view ⟨i, c.name, none, c.price⟩, s2) ∧
      (run (.getById i) s2).1 = .view ⟨i, c.name, none, c.price⟩ := by
  have hcd : c.description = none := validate_description_none hv hdesc
  obtain ⟨s2, h1, h2⟩ := update_then_get i c s (by rw [hg]; rfl)
  rw [hcd] at h1 h2
  exact ⟨hcd, s2, by simp [run, hv, h1], by rw [show run (.getById i) s2 = get_coffee_by_id i s2 from rfl, h2]⟩

/-- C10 witness: updating a record that has a description with a payload
that omits one erases it. -/
theorem update_erases_description_witness :
    CoffeeCreate.validate rawLatte = some ⟨"Latte", none, 9 / 2⟩ ∧
    rawLatte.description = none ∧
    (⟨[⟨1, "Mocha", some "oat milk", 5⟩], 2⟩ : Store).get? 1 =
      some ⟨1, "Mocha", some "oat milk", 5⟩ ∧
    (⟨1, "Mocha", some "oat milk", 5⟩ : Coffee).description = some "oat milk" ∧
    ((⟨"Latte", none, (9 : Rat) / 2⟩ : CoffeeCreate).description = none ∧
      ∃ s2, run (.update 1 rawLatte) (⟨[⟨1, "Mocha", some "oat milk", 5⟩], 2⟩ : Store) =
          (.view ⟨1, "Latte", none, 9 / 2⟩, s2) ∧
        (run (.getById 1) s2).1 = .view ⟨1, "Latte", none, 9 / 2⟩) :=
  ⟨rfl, rfl, rfl, rfl,
    update_erases_description 1 rawLatte ⟨"Latte", none, 9 / 2⟩
      ⟨[⟨1, "Mocha", some "oat milk", 5⟩], 2⟩ ⟨1, "Mocha", some "oat milk", 5⟩
      "oat milk" rfl rfl rfl rfl⟩

end CoffeeApi
